import Mathlib

/-!
# PERQ `compare.cpp`: the timed accumulation loop

A shallow embedding of `src/compare.cpp`.  The program fills a 16×16 array of
`int` with `rand()` values, runs

    for (int i = 0; i < mx; ++i)
      for (int j = 0; j < 16; ++j)
        shorts[0][j] = shorts[i % 16][j] + shorts[0][j];

between two `clock()` readings, and prints the elapsed time followed by the
sixteen cells of row 0.

The values produced by `rand()` and the text printed for the elapsed time are
inputs of the model.  Integer addition is a parameter of the loop, so the same
translation is run with 32-bit wraparound (`wrapAdd`) and with unbounded
integers (`exactAdd`).
-/

namespace PERQ

/-! ## Machine integers -/

/-- Smallest value of a 32-bit signed `int`. -/
def INT_MIN : Int := -2147483648

/-- Largest value of a 32-bit signed `int`; also glibc's `RAND_MAX`. -/
def INT_MAX : Int := 2147483647

/-- Whether `x` is representable as a 32-bit signed `int`. -/
def inIntRange (x : Int) : Prop := INT_MIN ≤ x ∧ x ≤ INT_MAX

instance (x : Int) : Decidable (inIntRange x) := by
  unfold inIntRange; infer_instance

/-- Two's-complement reduction of an unbounded integer to a 32-bit signed `int`. -/
def wrap32 (x : Int) : Int := (x + 2147483648) % 4294967296 - 2147483648

/-- Addition of two `int`s with 32-bit two's-complement wraparound. -/
def wrapAdd (x y : Int) : Int := wrap32 (x + y)

/-- Addition of unbounded integers (the arbitrary-precision accumulator). -/
def exactAdd (x y : Int) : Int := x + y

/-! ## The grid and the accumulation loop (lines 5–17) -/

/-- Line 5: `int mx = 100000000;`. -/
def mx : Nat := 100000000

/-- Line 6: `int shorts[16][16];` — a fixed 16×16 array, row-major. -/
abbrev Grid := Fin 16 → Fin 16 → Int

/-- The row selected by `shorts[i % 16]`. -/
def rowIndex (i : Nat) : Fin 16 := ⟨i % 16, Nat.mod_lt i (by decide)⟩

/-- Line 15: `shorts[0][j] = shorts[i % 16][j] + shorts[0][j];`. -/
def assign (add : Int → Int → Int) (i : Nat) (g : Grid) (j : Fin 16) : Grid :=
  Function.update g 0 (Function.update (g 0) j (add (g (rowIndex i) j) (g 0 j)))

/-- Lines 14–16: `for (int j = 0; j < 16; ++j)` around line 15, for a fixed `i`. -/
def innerLoop (add : Int → Int → Int) (i : Nat) (g : Grid) : Grid :=
  (List.finRange 16).foldl (assign add i) g

/-- Lines 13–17: the first `n` iterations `i = 0, …, n - 1` of the outer loop. -/
def outerLoop (add : Int → Int → Int) : Nat → Grid → Grid
  | 0, g => g
  | n + 1, g => innerLoop add n (outerLoop add n g)

/-- The grid after the accumulation loop as compiled: `mx` iterations, wrapping `int`. -/
@[irreducible]
def accumulate (g : Grid) : Grid := outerLoop wrapAdd mx g

/-! ## The report (lines 18–21) -/

/-- Line 20: `cout << shorts[0][j] << endl;` appends the decimal text of the cell and a
newline to what has been written so far. -/
def printCell (g : Grid) (out : String) (j : Fin 16) : String :=
  out ++ toString (g 0 j) ++ "\n"

/-- Lines 18–21: the elapsed-time text, the suffix `ms`, a newline, then the loop
`for (int j = 0; j < 16; ++j)` around line 20.  The characters that `operator<<` emits
for the `float` expression of line 18 are the input `elapsed`. -/
def report (elapsed : String) (g : Grid) : String :=
  (List.finRange 16).foldl (printCell g) (elapsed ++ "ms" ++ "\n")

/-- The whole program: `rand` is the grid produced by lines 7–11, `elapsed` the text of
the time measured around the loop; the result is everything written to standard output. -/
def main (rand : Grid) (elapsed : String) : String :=
  report elapsed (accumulate rand)

/-! ## Checked execution: bounds-checked indexing, counter overflow, explicit fuel -/

/-- Read `shorts[r][c]` with the indices checked against the declared bounds. -/
def readCell (g : Grid) (r c : Nat) : Option Int :=
  if h : r < 16 ∧ c < 16 then some (g ⟨r, h.1⟩ ⟨c, h.2⟩) else none

/-- Write `shorts[r][c] = v` with the indices checked against the declared bounds. -/
def writeCell (g : Grid) (r c : Nat) (v : Int) : Option Grid :=
  if h : r < 16 ∧ c < 16 then
    some (Function.update g ⟨r, h.1⟩ (Function.update (g ⟨r, h.1⟩) ⟨c, h.2⟩ v))
  else none

/-- Line 15 with every array access checked. -/
def assignChecked (add : Int → Int → Int) (i j : Nat) (g : Grid) : Option Grid :=
  match readCell g (i % 16) j, readCell g 0 j with
  | some a, some b => writeCell g 0 j (add a b)
  | _, _ => none

/-- The loop `for (int i = lo; i < hi; ++i) body`, run from counter value `i` with `cnt`
iterations already completed.  It fails when the body fails, when `++i` would leave the
range of `int`, or when the fuel is exhausted before the loop condition turns false; on
success it returns the number of completed iterations and the final state. -/
def forLoop {σ : Type} (hi : Nat) (body : Nat → σ → Option σ) :
    Nat → Nat → Nat → σ → Option (Nat × σ)
  | 0, i, cnt, s => if i < hi then none else some (cnt, s)
  | fuel + 1, i, cnt, s =>
    if i < hi then
      match body i s with
      | none => none
      | some s' =>
        if (i : Int) + 1 ≤ INT_MAX then forLoop hi body fuel (i + 1) (cnt + 1) s' else none
    else some (cnt, s)

/-- Lines 14–16, checked. -/
def innerLoopChecked (add : Int → Int → Int) (fuel i : Nat) (g : Grid) : Option Grid :=
  (forLoop 16 (assignChecked add i) fuel 0 0 g).map Prod.snd

/-- Lines 13–17, checked, with loop bound `n`; returns the number of completed outer
iterations and the final grid. -/
def outerLoopChecked (add : Int → Int → Int) (fuel n : Nat) (g : Grid) :
    Option (Nat × Grid) :=
  forLoop n (innerLoopChecked add fuel) fuel 0 0 g

/-- Line 20, checked. -/
def printCellChecked (g : Grid) (j : Nat) (out : String) : Option String :=
  match readCell g 0 j with
  | some v => some (out ++ toString v ++ "\n")
  | none => none

/-- Lines 12–21, checked: the accumulation loop followed by the report. -/
def mainChecked (fuel : Nat) (rand : Grid) (elapsed : String) : Option String :=
  match outerLoopChecked wrapAdd fuel mx rand with
  | none => none
  | some (_, g) =>
    (forLoop 16 (printCellChecked g) fuel 0 0 (elapsed ++ "ms" ++ "\n")).map Prod.snd

/-! ## Notions used in the statements -/

/-- Sum of the initial values of rows 1..15 in column `c`. -/
def restSum (g : Grid) (c : Fin 16) : Int := ∑ r : Fin 15, g r.succ c

/-- Every cell lies in the range of `rand()`, `0 ≤ v ≤ RAND_MAX = 2^31 - 1`. -/
def inRandRange (g : Grid) : Prop := ∀ r c, 0 ≤ g r c ∧ g r c ≤ INT_MAX

instance (g : Grid) : Decidable (inRandRange g) := by
  unfold inRandRange; infer_instance

/-- The addition `x + y` of two `int`s leaves the range of `int`. -/
def addOverflows (x y : Int) : Prop := ¬ inIntRange (x + y)

instance (x y : Int) : Decidable (addOverflows x y) := by
  unfold addOverflows; infer_instance

/-- The grid at the moment line 15 is reached for column `j` in outer iteration `i` of
the wrapping run: `i` full passes, then columns `0 … j - 1` of pass `i`. -/
def gridBefore (g : Grid) (i : Nat) (j : Fin 16) : Grid :=
  ((List.finRange 16).take j.val).foldl (assign wrapAdd i) (outerLoop wrapAdd i g)

/-- The addition executed for column `j` in outer iteration `i` of the wrapping run
overflows: the exact sum of its two operands `shorts[i % 16][j]` and `shorts[0][j]`,
read when line 15 is reached, is not an `int`. -/
def overflowAt (g : Grid) (i : Nat) (j : Fin 16) : Prop :=
  addOverflows (gridBefore g i j (rowIndex i) j) (gridBefore g i j 0 j)

instance (g : Grid) (i : Nat) (j : Fin 16) : Decidable (overflowAt g i j) := by
  unfold overflowAt; infer_instance

/-- The grid with every cell `0`. -/
def zeroGrid : Grid := fun _ _ => 0

/-- The grid with every cell `1`. -/
def onesGrid : Grid := fun _ _ => 1

/-! ## Basic facts about the loop -/

theorem assign_apply (add : Int → Int → Int) (i : Nat) (g : Grid) (j r c : Fin 16) :
    assign add i g j r c
      = if r = 0 ∧ c = j then add (g (rowIndex i) j) (g 0 j) else g r c := by
  unfold assign
  by_cases hr : r = 0
  · subst hr
    by_cases hc : c = j
    · subst hc; simp
    · simp [Function.update_noteq hc, hc]
  · simp [Function.update_noteq hr, hr]

theorem foldl_assign_apply (add : Int → Int → Int) (i : Nat) (r c : Fin 16) :
    ∀ (l : List (Fin 16)), l.Nodup → ∀ g : Grid,
      (l.foldl (assign add i) g) r c
        = if r = 0 ∧ c ∈ l then add (g (rowIndex i) c) (g 0 c) else g r c := by
  intro l
  induction l with
  | nil => intro _ g; simp
  | cons a l ih =>
    intro hnd g
    have hnd2 := List.nodup_cons.mp hnd
    rw [List.foldl_cons, ih hnd2.2]
    by_cases hr : r = 0
    · subst hr
      by_cases hcl : c ∈ l
      · have hca : c ≠ a := fun h => hnd2.1 (h ▸ hcl)
        simp [hcl, assign_apply, hca]
      · by_cases hca : c = a
        · subst hca; simp [hcl, assign_apply]
        · simp [hcl, hca, assign_apply]
    · simp [hr, assign_apply]

/-- One pass of the inner loop: every cell of row 0 receives the sum of the source cell
and its own previous value; all other rows are untouched. -/
theorem innerLoop_apply (add : Int → Int → Int) (i : Nat) (g : Grid) (r c : Fin 16) :
    innerLoop add i g r c = if r = 0 then add (g (rowIndex i) c) (g 0 c) else g r c := by
  unfold innerLoop
  rw [foldl_assign_apply add i r c _ (List.nodup_finRange 16)]
  simp [List.mem_finRange]

theorem outerLoop_succ_apply (add : Int → Int → Int) (n : Nat) (g : Grid) (r c : Fin 16) :
    outerLoop add (n + 1) g r c
      = if r = 0 then add (outerLoop add n g (rowIndex n) c) (outerLoop add n g 0 c)
        else outerLoop add n g r c := by
  show innerLoop add n (outerLoop add n g) r c = _
  rw [innerLoop_apply]

/-- Rows other than row 0 are never written. -/
theorem outerLoop_row_ne_zero (add : Int → Int → Int) (n : Nat) (g : Grid) (r c : Fin 16)
    (hr : r ≠ 0) : outerLoop add n g r c = g r c := by
  induction n with
  | zero => rfl
  | succ n ih => rw [outerLoop_succ_apply, if_neg hr, ih]

/-- The value added in iteration `n`: the current row 0 when `n % 16 = 0`, the initial
row `n % 16` otherwise. -/
theorem outerLoop_succ_row0 (add : Int → Int → Int) (n : Nat) (g : Grid) (c : Fin 16) :
    outerLoop add (n + 1) g 0 c
      = add (if n % 16 = 0 then outerLoop add n g 0 c else g (rowIndex n) c)
          (outerLoop add n g 0 c) := by
  rw [outerLoop_succ_apply, if_pos rfl]
  by_cases h : n % 16 = 0
  · have : rowIndex n = 0 := by
      apply Fin.ext; simpa [rowIndex] using h
    rw [if_pos h, this]
  · have : rowIndex n ≠ 0 := by
      intro h0; apply h
      have := congrArg Fin.val h0
      simpa [rowIndex] using this
    rw [if_neg h, outerLoop_row_ne_zero add n g _ c this]

theorem wrap32_modEq (x : Int) : wrap32 x ≡ x [ZMOD 4294967296] := by
  unfold wrap32 Int.ModEq
  omega

theorem wrap32_inIntRange (x : Int) : inIntRange (wrap32 x) := by
  unfold wrap32 inIntRange INT_MIN INT_MAX
  omega

theorem wrap32_of_inIntRange (x : Int) (h : inIntRange x) : wrap32 x = x := by
  unfold wrap32
  unfold inIntRange INT_MIN INT_MAX at h
  omega

theorem wrapAdd_modEq (x y : Int) : wrapAdd x y ≡ x + y [ZMOD 4294967296] :=
  wrap32_modEq (x + y)

/-! ## The exact accumulator and its relation to the wrapping run -/

theorem exact_succ_row0 (n : Nat) (g : Grid) (c : Fin 16) :
    outerLoop exactAdd (n + 1) g 0 c
      = (if n % 16 = 0 then outerLoop exactAdd n g 0 c else g (rowIndex n) c)
          + outerLoop exactAdd n g 0 c := by
  rw [outerLoop_succ_row0]; rfl

/-- The wrapping run and the exact run agree modulo `2^32` in every cell. -/
theorem wrap_modEq_exact (n : Nat) (g : Grid) (r c : Fin 16) :
    outerLoop wrapAdd n g r c ≡ outerLoop exactAdd n g r c [ZMOD 4294967296] := by
  by_cases hr : r = 0
  · subst hr
    induction n with
    | zero => exact Int.ModEq.refl _
    | succ n ih =>
      rw [outerLoop_succ_row0 wrapAdd, outerLoop_succ_row0 exactAdd]
      refine (wrapAdd_modEq _ _).trans ?_
      show _ ≡ _ + _ [ZMOD 4294967296]
      by_cases h : n % 16 = 0
      · simp only [if_pos h]; exact ih.add ih
      · simp only [if_neg h]; exact (Int.ModEq.refl _).add ih
  · rw [outerLoop_row_ne_zero _ _ _ _ _ hr, outerLoop_row_ne_zero _ _ _ _ _ hr]

/-- During the first cycle (`n ≤ 16`) the exact accumulator is the initial cell plus the
initial values of the rows visited so far. -/
theorem exact_first_cycle (g : Grid) (c : Fin 16) :
    ∀ n, n ≤ 16 →
      outerLoop exactAdd n g 0 c = g 0 c + ∑ i in Finset.range n, g (rowIndex i) c := by
  intro n
  induction n with
  | zero => intro _; simp [outerLoop]
  | succ n ih =>
    intro hn
    rw [exact_succ_row0, Finset.sum_range_succ, ih (by omega)]
    by_cases h : n % 16 = 0
    · have hn0 : n = 0 := by omega
      subst hn0
      have : rowIndex 0 = 0 := rfl
      simp [this]
    · rw [if_neg h]; ring

theorem rowIndex_val_of_lt (i : Nat) (h : i < 16) : rowIndex i = ⟨i, h⟩ := by
  apply Fin.ext; simp [rowIndex, Nat.mod_eq_of_lt h]

theorem sum_range_rowIndex (g : Grid) (c : Fin 16) :
    ∑ i in Finset.range 16, g (rowIndex i) c = ∑ r : Fin 16, g r c := by
  rw [← Fin.sum_univ_eq_sum_range (fun i => g (rowIndex i) c) 16]
  apply Finset.sum_congr rfl
  intro r _
  rw [rowIndex_val_of_lt r.val r.isLt]

theorem sum_all_rows (g : Grid) (c : Fin 16) :
    ∑ r : Fin 16, g r c = g 0 c + restSum g c := by
  unfold restSum
  rw [Fin.sum_univ_succ]

/-- One full cycle of sixteen iterations doubles row 0 and adds rows 1..15 once. -/
theorem exact_cycle (g : Grid) (c : Fin 16) (k : Nat) :
    ∀ t, t ≤ 15 →
      outerLoop exactAdd (16 * k + 1 + t) g 0 c
        = 2 * outerLoop exactAdd (16 * k) g 0 c
          + ∑ i in Finset.range t, g (rowIndex (i + 1)) c := by
  intro t
  induction t with
  | zero =>
    intro _
    have h : (16 * k) % 16 = 0 := by omega
    show outerLoop exactAdd (16 * k + 1) g 0 c = _
    rw [exact_succ_row0, if_pos h]; simp; ring
  | succ t ih =>
    intro ht
    have h : ¬ (16 * k + 1 + t) % 16 = 0 := by omega
    have hrow : rowIndex (16 * k + 1 + t) = rowIndex (t + 1) := by
      apply Fin.ext; simp only [rowIndex]; omega
    show outerLoop exactAdd (16 * k + 1 + t + 1) g 0 c = _
    rw [exact_succ_row0, if_neg h, ih (by omega), Finset.sum_range_succ, hrow]
    ring

theorem sum_range_rest (g : Grid) (c : Fin 16) :
    ∑ i in Finset.range 15, g (rowIndex (i + 1)) c = restSum g c := by
  unfold restSum
  rw [← Fin.sum_univ_eq_sum_range (fun i => g (rowIndex (i + 1)) c) 15]
  apply Finset.sum_congr rfl
  intro r _
  have : rowIndex (r.val + 1) = r.succ := by
    apply Fin.ext
    have := r.isLt
    simp only [rowIndex, Fin.val_succ]; omega
  rw [this]

/-- Closed form of the exact accumulator after `k` full cycles. -/
theorem exact_cycles (g : Grid) (c : Fin 16) (k : Nat) :
    outerLoop exactAdd (16 * k) g 0 c
      = 2 ^ k * g 0 c + (2 ^ k - 1) * restSum g c := by
  induction k with
  | zero => simp [outerLoop]
  | succ k ih =>
    have h := exact_cycle g c k 15 (le_refl _)
    have e : 16 * (k + 1) = 16 * k + 1 + 15 := by ring
    rw [e, h, ih, sum_range_rest, pow_succ]
    ring

/-! ## Overflow of the additions -/

theorem not_mem_take_finRange (j : Fin 16) : j ∉ (List.finRange 16).take j.val := by
  intro h
  rw [List.mem_take_iff_getElem] at h
  obtain ⟨k, hk, hkj⟩ := h
  have hk2 : k < j.val := lt_of_lt_of_le hk (min_le_left _ _)
  have := congrArg Fin.val hkj
  simp at this
  omega

/-- The columns processed earlier in a pass leave column `j` as it was after the
previous pass. -/
theorem gridBefore_apply (g : Grid) (i : Nat) (j r : Fin 16) :
    gridBefore g i j r j = outerLoop wrapAdd i g r j := by
  unfold gridBefore
  rw [foldl_assign_apply wrapAdd i r j _
    ((List.nodup_finRange 16).sublist (List.take_sublist _ _))]
  simp [not_mem_take_finRange]

theorem overflowAt_iff (g : Grid) (i : Nat) (j : Fin 16) :
    overflowAt g i j ↔
      ¬ inIntRange ((if i % 16 = 0 then outerLoop wrapAdd i g 0 j else g (rowIndex i) j)
          + outerLoop wrapAdd i g 0 j) := by
  unfold overflowAt addOverflows
  rw [gridBefore_apply, gridBefore_apply]
  by_cases h : i % 16 = 0
  · have : rowIndex i = 0 := by
      apply Fin.ext; simpa [rowIndex] using h
    rw [if_pos h, this]
  · have : rowIndex i ≠ 0 := by
      intro h0; apply h
      have := congrArg Fin.val h0
      simpa [rowIndex] using this
    rw [if_neg h, outerLoop_row_ne_zero wrapAdd i g _ j this]

/-- While no addition has overflowed in column `j`, the wrapping run carries the exact
value there. -/
theorem wrap_eq_exact_of_no_overflow (g : Grid) (j : Fin 16) :
    ∀ n, (∀ m, m < n → ¬ overflowAt g m j) →
      outerLoop wrapAdd n g 0 j = outerLoop exactAdd n g 0 j := by
  intro n
  induction n with
  | zero => intro _; rfl
  | succ n ih =>
    intro h
    have hn := ih (fun m hm => h m (Nat.lt_succ_of_lt hm))
    have ho := h n (Nat.lt_succ_self n)
    rw [overflowAt_iff, not_not] at ho
    rw [outerLoop_succ_row0 wrapAdd, exact_succ_row0, ← hn]
    exact wrap32_of_inIntRange _ ho

/-- With non-negative initial cells the exact accumulator is non-negative and never
decreases. -/
theorem exact_nonneg_mono (g : Grid) (hg : inRandRange g) (j : Fin 16) :
    ∀ n, 0 ≤ outerLoop exactAdd n g 0 j
      ∧ outerLoop exactAdd n g 0 j ≤ outerLoop exactAdd (n + 1) g 0 j := by
  have key : ∀ n, 0 ≤ outerLoop exactAdd n g 0 j := by
    intro n
    induction n with
    | zero => exact (hg 0 j).1
    | succ n ih =>
      rw [exact_succ_row0]
      by_cases h : n % 16 = 0
      · rw [if_pos h]; omega
      · rw [if_neg h]; have := (hg (rowIndex n) j).1; omega
  intro n
  refine ⟨key n, ?_⟩
  rw [exact_succ_row0]
  by_cases h : n % 16 = 0
  · rw [if_pos h]; have := key n; omega
  · rw [if_neg h]; have := (hg (rowIndex n) j).1; omega

theorem overflowAt_iff_exact (g : Grid) (j : Fin 16) (m : Nat)
    (h : outerLoop wrapAdd m g 0 j = outerLoop exactAdd m g 0 j) :
    overflowAt g m j ↔ ¬ inIntRange (outerLoop exactAdd (m + 1) g 0 j) := by
  rw [overflowAt_iff, exact_succ_row0, h]

theorem restSum_nonneg (g : Grid) (hg : inRandRange g) (j : Fin 16) : 0 ≤ restSum g j :=
  Finset.sum_nonneg (fun r _ => (hg r.succ j).1)

theorem column_sum_pos (g : Grid) (hg : inRandRange g) (j : Fin 16)
    (hnz : ∃ r, g r j ≠ 0) : 1 ≤ g 0 j + restSum g j := by
  obtain ⟨r, hr⟩ := hnz
  rw [← sum_all_rows]
  have h1 : g r j ≤ ∑ x : Fin 16, g x j :=
    Finset.single_le_sum (fun x _ => (hg x j).1) (Finset.mem_univ r)
  have h2 := (hg r j).1
  omega

/-- After 32 full cycles the exact accumulator of a column with a nonzero cell has left
the range of `int`. -/
theorem exact_512_out_of_range (g : Grid) (hg : inRandRange g) (j : Fin 16)
    (hnz : ∃ r, g r j ≠ 0) : ¬ inIntRange (outerLoop exactAdd 512 g 0 j) := by
  have h := exact_cycles g j 32
  have e : 16 * 32 = 512 := by norm_num
  rw [e] at h
  have h1 := column_sum_pos g hg j hnz
  have h2 := restSum_nonneg g hg j
  have h3 := (hg 0 j).1
  rw [h]
  unfold inIntRange INT_MIN INT_MAX
  norm_num
  omega

/-- The first overflow: existence, position and agreement with the exact accumulator. -/
theorem first_overflow (g : Grid) (hg : inRandRange g) (j : Fin 16)
    (hnz : ∃ r, g r j ≠ 0) :
    ∃ i, i < 512 ∧ (∀ m, m < i → ¬ overflowAt g m j) ∧ overflowAt g i j
      ∧ ¬ inIntRange (outerLoop exactAdd (i + 1) g 0 j) := by
  classical
  have hex : ∃ i, overflowAt g i j := by
    by_contra hno
    push_neg at hno
    have hw := wrap_eq_exact_of_no_overflow g j 512 (fun m _ => hno m)
    have h511 := wrap_eq_exact_of_no_overflow g j 511 (fun m _ => hno m)
    have := (overflowAt_iff_exact g j 511 h511).not.mp (hno 511)
    exact this (exact_512_out_of_range g hg j hnz)
  have hmin : ∀ m, m < Nat.find hex → ¬ overflowAt g m j := fun m hm => Nat.find_min hex hm
  have hspec := Nat.find_spec hex
  have hwe := wrap_eq_exact_of_no_overflow g j (Nat.find hex) hmin
  refine ⟨Nat.find hex, ?_, hmin, hspec, (overflowAt_iff_exact g j _ hwe).mp hspec⟩
  by_contra hge
  push_neg at hge
  have h511 := wrap_eq_exact_of_no_overflow g j 511
    (fun m hm => hmin m (lt_of_lt_of_le hm (by omega)))
  have hno : ¬ overflowAt g 511 j := hmin 511 (by omega)
  exact (overflowAt_iff_exact g j 511 h511).not.mp hno (exact_512_out_of_range g hg j hnz)

theorem zeroGrid_exact (n : Nat) (j : Fin 16) : outerLoop exactAdd n zeroGrid 0 j = 0 := by
  induction n with
  | zero => rfl
  | succ n ih =>
    rw [exact_succ_row0, ih]
    by_cases h : n % 16 = 0
    · rw [if_pos h]; rfl
    · rw [if_neg h]; rfl

theorem zeroGrid_wrap (n : Nat) (j : Fin 16) : outerLoop wrapAdd n zeroGrid 0 j = 0 := by
  induction n with
  | zero => rfl
  | succ n ih =>
    rw [outerLoop_succ_row0, ih]
    by_cases h : n % 16 = 0
    · rw [if_pos h]; rfl
    · rw [if_neg h]; rfl

/-! ## The value left in row 0 after many cycles -/

theorem wrap_succ_inIntRange (n : Nat) (g : Grid) (j : Fin 16) :
    inIntRange (outerLoop wrapAdd (n + 1) g 0 j) := by
  rw [outerLoop_succ_row0]
  exact wrap32_inIntRange _

theorem eq_wrap32_of_modEq (x y : Int) (hx : inIntRange x)
    (h : x ≡ y [ZMOD 4294967296]) : x = wrap32 y := by
  unfold inIntRange INT_MIN INT_MAX at hx
  unfold Int.ModEq at h
  unfold wrap32
  omega

/-- Closed form of the wrapping run after `k` full cycles. -/
theorem wrap_cycles_modEq (g : Grid) (j : Fin 16) (k : Nat) :
    outerLoop wrapAdd (16 * k) g 0 j
      ≡ 2 ^ k * g 0 j + (2 ^ k - 1) * restSum g j [ZMOD 4294967296] := by
  have h := wrap_modEq_exact (16 * k) g 0 j
  rwa [exact_cycles] at h

/-- From 32 full cycles on, the initial row 0 has been shifted out entirely. -/
theorem wrap_cycles_ge_32 (g : Grid) (j : Fin 16) (k : Nat) (hk : 32 ≤ k) :
    outerLoop wrapAdd (16 * k) g 0 j = wrap32 (-(restSum g j)) := by
  have hpos : 16 * k = (16 * k - 1) + 1 := by omega
  have hr : inIntRange (outerLoop wrapAdd (16 * k) g 0 j) := by
    rw [hpos]; exact wrap_succ_inIntRange _ g j
  apply eq_wrap32_of_modEq _ _ hr
  refine (wrap_cycles_modEq g j k).trans ?_
  have hd : (4294967296 : Int) ∣ 2 ^ k := by
    have : (2 : Int) ^ 32 ∣ 2 ^ k := pow_dvd_pow 2 hk
    norm_num at this
    exact this
  have hz : (2 : Int) ^ k ≡ 0 [ZMOD 4294967296] := (Int.modEq_zero_iff_dvd).mpr hd
  have h1 := (hz.mul_right (g 0 j)).add ((hz.sub_right 1).mul_right (restSum g j))
  refine h1.trans ?_
  have e : (0 : Int) * g 0 j + (0 - 1) * restSum g j = -(restSum g j) := by ring
  rw [e]

theorem mx_eq : mx = 16 * 6250000 := by
  unfold mx; norm_num

theorem accumulate_apply (g : Grid) (j : Fin 16) :
    accumulate g 0 j = wrap32 (-(restSum g j)) := by
  unfold accumulate
  rw [mx_eq]
  exact wrap_cycles_ge_32 g j 6250000 (by norm_num)

/-! ## The text written to standard output -/

theorem digitChar_ne_newline (d : Nat) (hd : d < 10) : Nat.digitChar d ≠ '\n' := by
  interval_cases d <;> decide

theorem toDigitsCore_no_newline :
    ∀ (fuel n : Nat) (ds : List Char), '\n' ∉ ds → '\n' ∉ Nat.toDigitsCore 10 fuel n ds := by
  intro fuel
  induction fuel with
  | zero => intro n ds h; simpa [Nat.toDigitsCore] using h
  | succ fuel ih =>
    intro n ds h
    have hd : '\n' ∉ Nat.digitChar (n % 10) :: ds := by
      intro hm
      rcases List.mem_cons.mp hm with h1 | h1
      · exact digitChar_ne_newline (n % 10) (Nat.mod_lt n (by decide)) h1.symm
      · exact h h1
    unfold Nat.toDigitsCore
    by_cases h0 : n / 10 = 0
    · simp only [h0, if_true]; exact hd
    · simp only [h0, if_false]; exact ih _ _ hd

theorem nat_repr_no_newline (n : Nat) : '\n' ∉ (Nat.repr n).data := by
  unfold Nat.repr Nat.toDigits
  exact toDigitsCore_no_newline _ _ _ (by simp)

/-- The decimal text of an `int` contains no newline. -/
theorem toString_int_no_newline (v : Int) : '\n' ∉ (toString v).data := by
  cases v with
  | ofNat n => exact nat_repr_no_newline n
  | negSucc n =>
    show '\n' ∉ ("-" ++ Nat.repr (n + 1)).data
    rw [String.data_append]
    intro h
    rcases List.mem_append.mp h with h1 | h1
    · revert h1; decide
    · exact nat_repr_no_newline _ h1

theorem foldl_printCell (g : Grid) :
    ∀ (l : List (Fin 16)) (out : String),
      l.foldl (printCell g) out
        = out ++ String.join (l.map (fun j => toString (g 0 j) ++ "\n")) := by
  intro l
  induction l with
  | nil => intro out; simp [String.join]
  | cons a l ih =>
    intro out
    rw [List.foldl_cons, ih]
    apply String.ext
    simp [printCell, String.data_join, List.append_assoc]

/-- The output is the timing text, `ms`, a newline, then the sixteen cells of row 0,
each followed by a newline. -/
theorem report_eq (elapsed : String) (g : Grid) :
    report elapsed g
      = elapsed ++ "ms" ++ "\n"
          ++ String.join ((List.finRange 16).map (fun j => toString (g 0 j) ++ "\n")) := by
  unfold report
  rw [foldl_printCell]

theorem report_congr (elapsed : String) (g h : Grid) (hrow : ∀ j, g 0 j = h 0 j) :
    report elapsed g = report elapsed h := by
  rw [report_eq, report_eq]
  congr 2
  apply List.map_congr_left
  intro j _
  rw [hrow j]

/-! ## Checked execution agrees with the total model -/

/-- A `for` loop whose body never fails and whose bound is an `int` succeeds as soon as
the fuel covers the remaining iterations, after exactly `hi - i` further iterations. -/
theorem forLoop_eq {σ : Type} (hi : Nat) (body : Nat → σ → Option σ) (f : Nat → σ → σ)
    (hhi : (hi : Int) ≤ INT_MAX) (hb : ∀ k, k < hi → ∀ s, body k s = some (f k s)) :
    ∀ (fuel i cnt : Nat) (s : σ), i ≤ hi → hi - i ≤ fuel →
      forLoop hi body fuel i cnt s
        = some (cnt + (hi - i), (List.range' i (hi - i)).foldl (fun s k => f k s) s) := by
  intro fuel
  induction fuel with
  | zero =>
    intro i cnt s hle hfuel
    have : hi - i = 0 := by omega
    have hnot : ¬ i < hi := by omega
    simp [forLoop, hnot, this]
  | succ fuel ih =>
    intro i cnt s hle hfuel
    by_cases hlt : i < hi
    · have hstep : (i : Int) + 1 ≤ INT_MAX := by
        have : ((i + 1 : Nat) : Int) ≤ (hi : Int) := by exact_mod_cast hlt
        push_cast at this
        exact le_trans this hhi
      have e : hi - i = (hi - (i + 1)) + 1 := by omega
      rw [forLoop, if_pos hlt, hb i hlt s]
      simp only [if_pos hstep]
      rw [ih (i + 1) (cnt + 1) (f i s) hlt (by omega), e, List.range'_succ, List.foldl_cons]
      congr 2
      omega
    · have : hi - i = 0 := by omega
      simp [forLoop, hlt, this]

theorem foldl_range'_outerLoop (add : Int → Int → Int) (g : Grid) :
    ∀ n, (List.range' 0 n).foldl (fun s k => innerLoop add k s) g = outerLoop add n g := by
  intro n
  induction n with
  | zero => rfl
  | succ n ih =>
    rw [List.range'_concat, List.foldl_append, ih]
    simp [outerLoop]

theorem foldl_pmap_fin {σ : Type} (n : Nat) (F : σ → Fin n → σ) :
    ∀ (l : List Nat) (hl : ∀ k ∈ l, k < n) (s : σ),
      l.foldl (fun s k => if hk : k < n then F s ⟨k, hk⟩ else s) s
        = (l.pmap Fin.mk hl).foldl F s := by
  intro l
  induction l with
  | nil => intro _ s; rfl
  | cons a l ih =>
    intro hl s
    have ha : a < n := hl a (List.mem_cons_self a l)
    simp only [List.foldl_cons, List.pmap, dif_pos ha]
    exact ih (fun k hk => hl k (List.mem_cons_of_mem a hk)) _

/-- Counting a column index up from `0` visits the same cells as folding over `Fin n`. -/
theorem foldl_range'_finRange {σ : Type} (n : Nat) (F : σ → Fin n → σ) (s : σ) :
    (List.range' 0 n).foldl (fun s k => if hk : k < n then F s ⟨k, hk⟩ else s) s
      = (List.finRange n).foldl F s := by
  rw [← List.range_eq_range', List.finRange_eq_pmap_range]
  exact foldl_pmap_fin n F (List.range n) _ s

theorem assignChecked_eq (add : Int → Int → Int) (i k : Nat) (hk : k < 16) (g : Grid) :
    assignChecked add i k g = some (assign add i g ⟨k, hk⟩) := by
  have hi : i % 16 < 16 := Nat.mod_lt i (by decide)
  simp [assignChecked, readCell, writeCell, hk, hi, assign, rowIndex]

theorem innerLoopChecked_eq (add : Int → Int → Int) (fuel i : Nat) (hfuel : 16 ≤ fuel)
    (g : Grid) : innerLoopChecked add fuel i g = some (innerLoop add i g) := by
  unfold innerLoopChecked
  rw [forLoop_eq 16 (assignChecked add i)
    (fun k s => if hk : k < 16 then assign add i s ⟨k, hk⟩ else s)
    (by unfold INT_MAX; norm_num)
    (fun k hk s => by simp only [assignChecked_eq add i k hk s, dif_pos hk])
    fuel 0 0 g (by omega) (by omega)]
  simp only [Option.map_some', Nat.sub_zero]
  rw [foldl_range'_finRange]
  rfl

theorem outerLoopChecked_eq (add : Int → Int → Int) (fuel n : Nat) (hn : (n : Int) ≤ INT_MAX)
    (h16 : 16 ≤ fuel) (hfuel : n ≤ fuel) (g : Grid) :
    outerLoopChecked add fuel n g = some (n, outerLoop add n g) := by
  unfold outerLoopChecked
  rw [forLoop_eq n (innerLoopChecked add fuel) (fun k s => innerLoop add k s) hn
    (fun k _ s => innerLoopChecked_eq add fuel k h16 s) fuel 0 0 g (by omega) (by omega)]
  simp [foldl_range'_outerLoop]

theorem printCellChecked_eq (g : Grid) (k : Nat) (hk : k < 16) (out : String) :
    printCellChecked g k out = some (printCell g out ⟨k, hk⟩) := by
  simp [printCellChecked, readCell, hk, printCell]

theorem printLoopChecked_eq (g : Grid) (fuel : Nat) (hfuel : 16 ≤ fuel) (elapsed : String) :
    (forLoop 16 (printCellChecked g) fuel 0 0 (elapsed ++ "ms" ++ "\n")).map Prod.snd
      = some (report elapsed g) := by
  rw [forLoop_eq 16 (printCellChecked g)
    (fun k s => if hk : k < 16 then printCell g s ⟨k, hk⟩ else s)
    (by unfold INT_MAX; norm_num)
    (fun k hk s => by simp only [printCellChecked_eq g k hk s, dif_pos hk])
    fuel 0 0 _ (by omega) (by omega)]
  simp only [Option.map_some', Nat.sub_zero]
  rw [foldl_range'_finRange]
  rfl

/-- The output for an arbitrary final grid splits into 17 newline-free lines. -/
theorem report_lines (g : Grid) (elapsed : String) (hel : '\n' ∉ elapsed.data) :
    ∃ lines : List String,
      lines.length = 17
        ∧ (∀ l ∈ lines, '\n' ∉ l.data)
        ∧ report elapsed g = String.join (lines.map (fun l => l ++ "\n"))
        ∧ lines[0]? = some (elapsed ++ "ms")
        ∧ ∀ j : Fin 16, lines[j.val + 1]? = some (toString (g 0 j)) := by
  refine ⟨(elapsed ++ "ms") ::
    (List.finRange 16).map (fun j => toString (g 0 j)), ?_, ?_, ?_, ?_, ?_⟩
  · simp
  · intro l hl
    rcases List.mem_cons.mp hl with h | h
    · subst h
      rw [String.data_append]
      intro hm
      rcases List.mem_append.mp hm with h1 | h1
      · exact hel h1
      · revert h1; decide
    · obtain ⟨j, _, rfl⟩ := List.mem_map.mp h
      exact toString_int_no_newline _
  · rw [report_eq]
    apply String.ext
    simp [String.data_join, List.map_map, Function.comp_def]
  · rfl
  · intro j
    simp

/-- The timing text can be read back from the output. -/
theorem report_inj (g : Grid) (e1 e2 : String) (h : report e1 g = report e2 g) :
    e1 = e2 := by
  rw [report_eq, report_eq] at h
  have hd := congrArg String.data h
  simp only [String.data_append, List.append_assoc] at hd
  exact String.ext (List.append_cancel_right hd)

theorem restSum_update_row0 (g : Grid) (row0 : Fin 16 → Int) (c : Fin 16) :
    restSum (Function.update g 0 row0) c = restSum g c := by
  unfold restSum
  apply Finset.sum_congr rfl
  intro r _
  rw [Function.update_noteq (Fin.succ_ne_zero r)]

theorem onesGrid_inRandRange : inRandRange onesGrid := by
  intro r c
  simp [onesGrid, INT_MAX]

theorem zeroGrid_inRandRange : inRandRange zeroGrid := by
  intro r c
  simp [zeroGrid, INT_MAX]

/-! ## The claims -/

/-- C1: with the iteration count reduced to 16, every cell of row 0 ends as its initial
value plus the sum of the initial values of all sixteen rows in its column, modulo
`2^32`. -/
theorem first_sixteen_iterations_direct_sum (g : Grid) (j : Fin 16) :
    outerLoop wrapAdd 16 g 0 j ≡ g 0 j + ∑ r : Fin 16, g r j [ZMOD 4294967296] := by
  refine (wrap_modEq_exact 16 g 0 j).trans ?_
  rw [exact_first_cycle g j 16 (le_refl _), sum_range_rowIndex]

/-- C2, as stated, fails: on the all-ones grid 17 iterations leave `34` in
`shorts[0][0]`, while the initial cell plus the initial values of the rows visited is
`18`. -/
theorem direct_sum_fails_at_seventeen :
    ¬ (outerLoop wrapAdd 17 onesGrid 0 0
        ≡ onesGrid 0 0 + ∑ i in Finset.range 17, onesGrid (rowIndex i) 0
          [ZMOD 4294967296]) := by
  intro h
  have h1 := (wrap_modEq_exact 17 onesGrid 0 0).symm.trans h
  have h2 := exact_cycle onesGrid 0 1 0 (by norm_num)
  have h3 := exact_cycles onesGrid 0 1
  have hr : restSum onesGrid 0 = 15 := by simp [restSum, onesGrid]
  have e : 16 * 1 + 1 + 0 = 17 := by norm_num
  rw [e, h3, hr] at h2
  rw [h2] at h1
  simp [onesGrid, Int.ModEq] at h1

/-- C2, amended: for every iteration count `n ≤ 16` every cell of row 0 ends as its
initial value plus the initial values of the rows `i mod 16` for `i < n`, modulo
`2^32`. -/
theorem row0_direct_sum_first_cycle (g : Grid) (j : Fin 16) (n : Nat) (hn : n ≤ 16) :
    outerLoop wrapAdd n g 0 j
      ≡ g 0 j + ∑ i in Finset.range n, g (rowIndex i) j [ZMOD 4294967296] := by
  refine (wrap_modEq_exact n g 0 j).trans ?_
  rw [exact_first_cycle g j n hn]

/-- The amended C2 at `n = 5` on the all-ones grid, column 3. -/
theorem row0_direct_sum_first_cycle_witness :
    5 ≤ 16 ∧ (outerLoop wrapAdd 5 onesGrid 0 3
      ≡ onesGrid 0 3 + ∑ i in Finset.range 5, onesGrid (rowIndex i) 3
        [ZMOD 4294967296]) :=
  ⟨by decide, row0_direct_sum_first_cycle onesGrid 3 5 (by decide)⟩

/-- C3: the accumulation loop writes only row 0; every cell of rows 1..15 holds after any
number of outer iterations the value it held before. -/
theorem rows_below_unchanged (g : Grid) (n : Nat) (r j : Fin 16) (hr : 1 ≤ r.val) :
    outerLoop wrapAdd n g r j = g r j := by
  apply outerLoop_row_ne_zero
  intro h0
  rw [h0] at hr
  simp at hr

/-- C3 at row 7, column 2 of the all-ones grid after 40 iterations. -/
theorem rows_below_unchanged_witness :
    1 ≤ (7 : Fin 16).val ∧ outerLoop wrapAdd 40 onesGrid 7 2 = onesGrid 7 2 :=
  ⟨by decide, rows_below_unchanged onesGrid 40 7 2 (by decide)⟩

/-- C4: when the timing text holds no newline, standard output is exactly 17
newline-terminated lines: the timing text followed by `ms`, then the decimal text of the
final `shorts[0][j]` for `j = 0, …, 15` in column order. -/
theorem stdout_seventeen_lines (rand : Grid) (elapsed : String)
    (hel : '\n' ∉ elapsed.data) :
    ∃ lines : List String,
      lines.length = 17
        ∧ (∀ l ∈ lines, '\n' ∉ l.data)
        ∧ main rand elapsed = String.join (lines.map (fun l => l ++ "\n"))
        ∧ lines[0]? = some (elapsed ++ "ms")
        ∧ ∀ j : Fin 16, lines[j.val + 1]? = some (toString (accumulate rand 0 j)) :=
  report_lines (accumulate rand) elapsed hel

/-- C4 on the all-ones grid with timing text `250`. -/
theorem stdout_seventeen_lines_witness :
    '\n' ∉ ("250" : String).data ∧
      ∃ lines : List String,
        lines.length = 17
          ∧ (∀ l ∈ lines, '\n' ∉ l.data)
          ∧ main onesGrid ("250" : String) = String.join (lines.map (fun l => l ++ "\n"))
          ∧ lines[0]? = some (("250" : String) ++ "ms")
          ∧ ∀ j : Fin 16, lines[j.val + 1]? = some (toString (accumulate onesGrid 0 j)) :=
  ⟨by decide, stdout_seventeen_lines onesGrid ("250" : String) (by decide)⟩

/-- C5, as stated, fails: two runs on the same grid whose measured times print
differently do not write the same output. -/
theorem stdout_differs_with_timing :
    main onesGrid ("250" : String) ≠ main onesGrid ("251" : String) := by
  intro h
  have := report_inj (accumulate onesGrid) _ _ h
  revert this
  decide

/-- C5, amended: two runs on the same grid write the same output exactly when their
timing texts coincide, and in any case their outputs agree in everything after the
timing line (the sixteen values of row 0). -/
theorem stdout_reproducible_up_to_timing (rand : Grid) (e1 e2 : String) :
    (main rand e1 = main rand e2 ↔ e1 = e2)
      ∧ ∃ rest : String,
          main rand e1 = e1 ++ "ms" ++ "\n" ++ rest
            ∧ main rand e2 = e2 ++ "ms" ++ "\n" ++ rest :=
  ⟨⟨report_inj (accumulate rand) e1 e2, fun h => congrArg (main rand) h⟩,
    ⟨_, report_eq e1 (accumulate rand), report_eq e2 (accumulate rand)⟩⟩

/-- C6, as stated, fails: the all-zero grid lies in the range of the generator, yet no
addition of column 0 overflows and the exact value of `shorts[0][0]` never leaves the
range of `int`. -/
theorem zeroGrid_never_overflows :
    inRandRange zeroGrid
      ∧ ¬ ∃ i, i < mx ∧ (overflowAt zeroGrid i 0
            ∨ ¬ inIntRange (outerLoop exactAdd (i + 1) zeroGrid 0 0)) := by
  refine ⟨zeroGrid_inRandRange, ?_⟩
  rintro ⟨i, _, h⟩
  have hin : inIntRange (outerLoop exactAdd (i + 1) zeroGrid 0 0) := by
    rw [zeroGrid_exact]; unfold inIntRange INT_MIN INT_MAX; norm_num
  have hwe : outerLoop wrapAdd i zeroGrid 0 0 = outerLoop exactAdd i zeroGrid 0 0 := by
    rw [zeroGrid_exact, zeroGrid_wrap]
  rcases h with h | h
  · exact (overflowAt_iff_exact zeroGrid 0 i hwe).mp h hin
  · exact h hin

/-- C6, amended: for every grid in the range of the generator and every column holding
at least one nonzero cell, some addition of that column overflows before the loop
completes (within the first 512 outer iterations); at the first such outer iteration the
exact value of row 0 leaves the range of `int`. -/
theorem nonzero_column_overflows (g : Grid) (j : Fin 16) (hg : inRandRange g)
    (hnz : ∃ r, g r j ≠ 0) :
    ∃ i, i < mx ∧ i < 512 ∧ (∀ m, m < i → ¬ overflowAt g m j) ∧ overflowAt g i j
      ∧ ¬ inIntRange (outerLoop exactAdd (i + 1) g 0 j) := by
  obtain ⟨i, hi, h1, h2, h3⟩ := first_overflow g hg j hnz
  refine ⟨i, ?_, hi, h1, h2, h3⟩
  unfold mx
  omega

/-- The amended C6 on the all-ones grid, column 4. -/
theorem nonzero_column_overflows_witness :
    inRandRange onesGrid ∧ (∃ r, onesGrid r 4 ≠ 0) ∧
      ∃ i, i < mx ∧ i < 512 ∧ (∀ m, m < i → ¬ overflowAt onesGrid m 4)
        ∧ overflowAt onesGrid i 4
        ∧ ¬ inIntRange (outerLoop exactAdd (i + 1) onesGrid 0 4) :=
  ⟨onesGrid_inRandRange, ⟨0, by decide⟩,
    nonzero_column_overflows onesGrid 4 onesGrid_inRandRange ⟨0, by decide⟩⟩

/-- C7: for a grid in the range of the generator, as long as no addition of column `j`
has overflowed in the outer iterations `0, …, i`, the magnitude of `shorts[0][j]` after
iteration `i` is at least its magnitude before iteration `i`. -/
theorem row0_magnitude_monotone (g : Grid) (j : Fin 16) (i : Nat) (hg : inRandRange g)
    (hno : ∀ m, m ≤ i → ¬ overflowAt g m j) :
    |outerLoop wrapAdd i g 0 j| ≤ |outerLoop wrapAdd (i + 1) g 0 j| := by
  have h1 := wrap_eq_exact_of_no_overflow g j i (fun m hm => hno m (le_of_lt hm))
  have h2 := wrap_eq_exact_of_no_overflow g j (i + 1)
    (fun m hm => hno m (Nat.lt_succ_iff.mp hm))
  have h3 := exact_nonneg_mono g hg j i
  rw [h1, h2, abs_of_nonneg h3.1, abs_of_nonneg (le_trans h3.1 h3.2)]
  exact h3.2

/-- C7 on the all-ones grid, column 2, outer iteration 0. -/
theorem row0_magnitude_monotone_witness :
    inRandRange onesGrid ∧ (∀ m, m ≤ 0 → ¬ overflowAt onesGrid m 2) ∧
      |outerLoop wrapAdd 0 onesGrid 0 2| ≤ |outerLoop wrapAdd (0 + 1) onesGrid 0 2| :=
  have hno : ∀ m, m ≤ 0 → ¬ overflowAt onesGrid m 2 := by
    intro m hm
    have hm0 : m = 0 := Nat.le_zero.mp hm
    subst hm0
    rw [overflowAt_iff]
    simp [outerLoop, onesGrid, inIntRange, INT_MIN, INT_MAX]
  ⟨onesGrid_inRandRange, hno, row0_magnitude_monotone onesGrid 2 0 onesGrid_inRandRange hno⟩

/-- C8: after the full `100000000` iterations every cell of row 0 is the wrapped
negation of the sum of the initial rows 1..15 of its column; these are the values
printed, and replacing the initial row 0 by any other row changes neither them nor the
output. -/
theorem final_row0_negated_rest (g : Grid) (row0 : Fin 16 → Int) (elapsed : String)
    (j : Fin 16) :
    accumulate g 0 j = wrap32 (-(restSum g j))
      ∧ accumulate g 0 j ≡ -(∑ r : Fin 15, g r.succ j) [ZMOD 4294967296]
      ∧ main g elapsed
          = elapsed ++ "ms" ++ "\n" ++ String.join
              ((List.finRange 16).map (fun c => toString (wrap32 (-(restSum g c))) ++ "\n"))
      ∧ accumulate (Function.update g 0 row0) 0 j = accumulate g 0 j
      ∧ main (Function.update g 0 row0) elapsed = main g elapsed := by
  have hcell : ∀ c, accumulate (Function.update g 0 row0) 0 c = accumulate g 0 c := by
    intro c
    rw [accumulate_apply, accumulate_apply, restSum_update_row0]
  refine ⟨accumulate_apply g j, ?_, ?_, hcell j, report_congr elapsed _ _ hcell⟩
  · rw [accumulate_apply]
    exact wrap32_modEq _
  · show report elapsed (accumulate g) = _
    rw [report_eq]
    congr 2
    apply List.map_congr_left
    intro c _
    rw [accumulate_apply]

/-- C9: after `16 * k` outer iterations every cell of row 0 is
`2^k * initial[0][j] + (2^k - 1) * (initial[1][j] + … + initial[15][j])` modulo `2^32`;
the iteration with `i mod 16 = 0` adds row 0 to itself and the fifteen iterations after
it add the rows 1..15 once each. -/
theorem row0_after_full_cycles (g : Grid) (j : Fin 16) (k : Nat) :
    outerLoop wrapAdd (16 * k) g 0 j
        ≡ 2 ^ k * g 0 j + (2 ^ k - 1) * (∑ r : Fin 15, g r.succ j) [ZMOD 4294967296]
      ∧ outerLoop wrapAdd (16 * k + 1) g 0 j
          = wrapAdd (outerLoop wrapAdd (16 * k) g 0 j) (outerLoop wrapAdd (16 * k) g 0 j)
      ∧ ∀ t : Fin 15,
          outerLoop wrapAdd (16 * k + 1 + t.val + 1) g 0 j
            = wrapAdd (g t.succ j) (outerLoop wrapAdd (16 * k + 1 + t.val) g 0 j) := by
  refine ⟨wrap_cycles_modEq g j k, ?_, ?_⟩
  · have h : (16 * k) % 16 = 0 := by omega
    rw [outerLoop_succ_row0, if_pos h]
  · intro t
    have ht := t.isLt
    have h : ¬ (16 * k + 1 + t.val) % 16 = 0 := by omega
    have hrow : rowIndex (16 * k + 1 + t.val) = t.succ := by
      apply Fin.ext
      simp only [rowIndex, Fin.val_succ]
      omega
    rw [outerLoop_succ_row0, if_neg h, hrow]

/-- C10: every array access of the program is in bounds and the counter stays an `int`:
for every `i < 100000000` and `j < 16` the indices `i mod 16` and `j` are below 16 and
`++i` does not overflow, the checked line 15 succeeds on every grid, the checked loop
completes after exactly `100000000` outer iterations with the grid of the total model,
and the checked program writes the output of the total model. -/
theorem accesses_in_bounds (rand : Grid) (elapsed : String) (extra : Nat) :
    (∀ (i : Fin mx) (j : Fin 16),
        i.val % 16 < 16 ∧ j.val < 16 ∧ (i.val : Int) + 1 ≤ INT_MAX
          ∧ ∀ g : Grid, (assignChecked wrapAdd i.val j.val g).isSome
              ∧ (printCellChecked g j.val elapsed).isSome)
      ∧ outerLoopChecked wrapAdd (mx + extra) mx rand = some (mx, accumulate rand)
      ∧ mainChecked (mx + extra) rand elapsed = some (main rand elapsed) := by
  have hmx : (mx : Int) ≤ INT_MAX := by unfold mx INT_MAX; norm_num
  have h16 : 16 ≤ mx + extra := by unfold mx; omega
  have hloop : outerLoopChecked wrapAdd (mx + extra) mx rand = some (mx, accumulate rand) := by
    rw [outerLoopChecked_eq wrapAdd (mx + extra) mx hmx h16 (Nat.le_add_right _ _)]
    unfold accumulate
    rfl
  refine ⟨?_, hloop, ?_⟩
  · intro i j
    have hi := i.isLt
    refine ⟨Nat.mod_lt _ (by decide), j.isLt, ?_, ?_⟩
    · have : ((i.val + 1 : Nat) : Int) ≤ (mx : Int) := by exact_mod_cast hi
      push_cast at this
      exact le_trans this hmx
    · intro g
      rw [assignChecked_eq wrapAdd i.val j.val j.isLt, printCellChecked_eq g j.val j.isLt]
      exact ⟨rfl, rfl⟩
  · unfold mainChecked
    rw [hloop]
    exact printLoopChecked_eq (accumulate rand) (mx + extra) h16 elapsed

end PERQ
